import Mathlib

/-!
Verification development for the fastapi_ai_chatbot stream-translation and
persistence-synchronization engine.

The definitions below are a shallow embedding of the Python source:
- `OpenAIService.stream_chat` (app/services/openai_service.py, lines 28-191)
  becomes `stream_chat` over an explicit chunk list plus an explicit clock
  trace `tick : Nat → Nat` standing for the successive values of
  `int(time.time() * 1000)` observed during the call;
- `OpenAIService._format_messages` and `ChatMessage.to_openai_format` become
  `format_messages` / `to_openai_format`;
- the provider-call parameters of `client.chat.completions.create`
  (lines 55-65) become `requestParams`, with Python `or`-fallback semantics
  made explicit by `pyOrStr` / `pyOrQ` / `pyOrInt`;
- `ChatService.add_message` (app/services/chat_service.py, lines 126-182)
  becomes `add_message` on a `SessionRec`;
- the SSE generator of the `/api/chat/stream` route
  (app/routers/chat.py, lines 122-166) becomes `generate` (frames sent to
  the client) and `syncEvents` (its persistence effect on the session).
Numeric bot/settings fields are modelled as rationals: the code never does
arithmetic on them, it only tests truthiness and passes them through.
-/

namespace ChatApp

/-- `MessageRole` enum from app/models/chat.py. -/
inductive MessageRole where
  | user
  | assistant
  | system
  | tool
deriving DecidableEq

/-- `MessageType` enum from app/models/chat.py. -/
inductive MessageType where
  | message
  | tool_call
  | tool_result
  | error
  | info
deriving DecidableEq

/-- The fields of a stored `ChatMessage` row that `to_openai_format` reads.
List position stands for creation-time order (`get_session_messages` orders
by `created_at`). -/
structure ChatMessage where
  role : MessageRole
  message_type : MessageType
  raw_content : Option String
deriving DecidableEq

/-- `ChatMessage.to_openai_format` (app/models/chat.py, lines 125-134):
returns a `(role, content)` provider entry for plain messages of role
user / assistant / system, and `None` for everything else.
`self.raw_content or ""` collapses a missing or empty text to `""`. -/
def to_openai_format (m : ChatMessage) : Option (String × String) :=
  if m.message_type = MessageType.message then
    match m.role with
    | MessageRole.user => some ("user", m.raw_content.getD "")
    | MessageRole.assistant => some ("assistant", m.raw_content.getD "")
    | MessageRole.system => some ("system", m.raw_content.getD "")
    | MessageRole.tool => none
  else
    none

/-- The AI-configuration fields of a `Chatbot` row (app/models/chatbot.py)
that `stream_chat` reads.  `none` models a SQL NULL; the Python code treats
NULL, `0`, `0.0` and `""` alike (falsy), which the `pyOr*` helpers capture. -/
structure Chatbot where
  model : Option String
  system_prompt : String
  temperature : Option ℚ
  max_tokens : Option Int
  top_p : Option ℚ
  frequency_penalty : Option ℚ
  presence_penalty : Option ℚ
  tools_enabled : List String
deriving DecidableEq

/-- The OpenAI-related fields of `Settings` (app/core/config.py, lines 26-29). -/
structure Settings where
  OPENAI_MODEL : String
  OPENAI_MAX_TOKENS : Int
  OPENAI_TEMPERATURE : ℚ
deriving DecidableEq

/-- Python `x or d` for an optional string: `None` and `""` are falsy. -/
def pyOrStr (x : Option String) (d : String) : String :=
  match x with
  | none => d
  | some s => if s = "" then d else s

/-- Python `x or d` for an optional rational-valued field: `None` and `0.0`
are falsy. -/
def pyOrQ (x : Option ℚ) (d : ℚ) : ℚ :=
  match x with
  | none => d
  | some v => if v = 0 then d else v

/-- Python `x or d` for an optional integer field: `None` and `0` are falsy. -/
def pyOrInt (x : Option Int) (d : Int) : Int :=
  match x with
  | none => d
  | some v => if v = 0 then d else v

/-- The scalar parameters passed to `client.chat.completions.create`. -/
structure RequestParams where
  model : String
  temperature : ℚ
  max_tokens : Int
  top_p : ℚ
  frequency_penalty : ℚ
  presence_penalty : ℚ
deriving DecidableEq

/-- The parameter block built at app/services/openai_service.py lines 55-65:
each field is `chatbot.<field> or <fallback>`, where the fallback for model,
temperature and max_tokens is the `Settings` value and the fallback for
top_p / frequency_penalty / presence_penalty is the literal 1.0 / 0.0 / 0.0. -/
def requestParams (chatbot : Chatbot) (settings : Settings) : RequestParams :=
  { model := pyOrStr chatbot.model settings.OPENAI_MODEL
    temperature := pyOrQ chatbot.temperature settings.OPENAI_TEMPERATURE
    max_tokens := pyOrInt chatbot.max_tokens settings.OPENAI_MAX_TOKENS
    top_p := pyOrQ chatbot.top_p 1
    frequency_penalty := pyOrQ chatbot.frequency_penalty 0
    presence_penalty := pyOrQ chatbot.presence_penalty 0 }

/-- The body of `OpenAIService._format_messages`'s message loop
(app/services/openai_service.py, lines 213-217): append each message's
provider form when it is not `None`. -/
def formatLoop : List ChatMessage → List (String × String)
  | [] => []
  | m :: rest =>
    match to_openai_format m with
    | some e => e :: formatLoop rest
    | none => formatLoop rest

/-- `OpenAIService._format_messages` (lines 193-219): an optional system
entry from the bot's system prompt (omitted when the prompt is empty),
followed by the converted conversation messages. -/
def format_messages (messages : List ChatMessage) (chatbot : Chatbot) :
    List (String × String) :=
  (if chatbot.system_prompt = "" then [] else [("system", chatbot.system_prompt)])
    ++ formatLoop messages

/-- `tool_call.function` on a streamed chunk delta: optional name and
optional argument fragment. -/
structure ToolFn where
  name : Option String
  arguments : Option String
deriving DecidableEq

/-- One element of `delta.tool_calls`. -/
structure ToolDelta where
  id : Option String
  function : Option ToolFn
deriving DecidableEq

/-- `chunk.choices[0].delta`. -/
structure Delta where
  content : Option String
  tool_calls : List ToolDelta
deriving DecidableEq

/-- One provider stream chunk. `delta = none` models `chunk.choices` being
empty (the code then executes `continue`, skipping the finish check too). -/
structure Chunk where
  delta : Option Delta
  finish_reason : Option String
deriving DecidableEq

/-- Python truthiness of an optional string. -/
def strTruthy : Option String → Bool
  | none => false
  | some s => s ≠ ""

/-- The normalized events yielded by `stream_chat`, one constructor per
yield site, carrying every input-dependent field of the yielded payload
(the remaining fields of each payload are string constants in the code). -/
inductive Event where
  | textDelta (delta : String) (item_id : String) (text : String)
  | itemAdded (id : String) (name : Option String)
  | argDelta (delta : String) (item_id : String)
  | argsDone (item_id : String) (arguments : String)
  | itemDoneText (id : String) (content : String)
  | itemDoneTool (id : String) (name : Option String) (arguments : String)
  | completed (session_id : String)
  | streamError (message : String) (etype : String)
deriving DecidableEq

/-- Accumulator entry of `current_tool_calls[tool_id]` (the `id` field of
the dict equals its key and is kept as the key of the association list). -/
structure ToolEntry where
  name : Option String
  arguments : String
deriving DecidableEq

/-- Assembler state inside the chunk loop: the text buffer
`current_message`, the insertion-ordered dict `current_tool_calls`, and the
index of the next `time.time()` reading. -/
structure AsmState where
  buf : String
  tools : List (String × ToolEntry)
  ctr : Nat
deriving DecidableEq

/-- Key membership test on the tool dict (`tool_id not in current_tool_calls`). -/
def hasTool (ts : List (String × ToolEntry)) (tid : String) : Bool :=
  ts.any (fun p => p.1 = tid)

/-- `current_tool_calls[tool_id]["arguments"] += fragment`. -/
def appendArgs (ts : List (String × ToolEntry)) (tid : String) (frag : String) :
    List (String × ToolEntry) :=
  ts.map (fun p => if p.1 = tid then (p.1, { p.2 with arguments := p.2.arguments ++ frag }) else p)

/-- `tool_id = tool_call.id or f"tool_{int(time.time() * 1000)}"`
(app/services/openai_service.py, line 93): the id used for this tool-call
delta, together with the index of the next unread clock value. -/
def resolveToolId (tick : Nat → Nat) (s : AsmState) (tc : ToolDelta) : String × Nat :=
  match tc.id with
  | some i => if i = "" then ("tool_" ++ toString (tick s.ctr), s.ctr + 1) else (i, s.ctr)
  | none => ("tool_" ++ toString (tick s.ctr), s.ctr + 1)

/-- Processing of one element of `delta.tool_calls`
(app/services/openai_service.py, lines 92-125). -/
def processToolDelta (tick : Nat → Nat) (s : AsmState) (tc : ToolDelta) :
    AsmState × List Event :=
  let idc := resolveToolId tick s tc
  let tid := idc.1
  let nm : Option String :=
    match tc.function with
    | some f => f.name
    | none => none
  let s1 : AsmState :=
    if hasTool s.tools tid then { s with ctr := idc.2 }
    else { s with tools := s.tools ++ [(tid, { name := nm, arguments := "" })], ctr := idc.2 }
  let es1 : List Event :=
    if hasTool s.tools tid then [] else [Event.itemAdded tid nm]
  match tc.function with
  | some f =>
    match f.arguments with
    | some a =>
      if a = "" then (s1, es1)
      else ({ s1 with tools := appendArgs s1.tools tid a }, es1 ++ [Event.argDelta a tid])
    | none => (s1, es1)
  | none => (s1, es1)

/-- The `for tool_call in delta.tool_calls` loop. -/
def processToolDeltas (tick : Nat → Nat) (s : AsmState) :
    List ToolDelta → AsmState × List Event
  | [] => (s, [])
  | tc :: rest =>
    let (s1, es1) := processToolDelta tick s tc
    let (s2, es2) := processToolDeltas tick s1 rest
    (s2, es1 ++ es2)

/-- The events yielded by the finish-reason block
(app/services/openai_service.py, lines 128-169): a text `item_done` when the
buffer is nonempty, then for each tracked tool call, in dict insertion
order, `function_call_arguments.done` followed by a function_call
`item_done`.  The state is not modified. -/
def finishEvents (msgId : String) (s : AsmState) : List Event :=
  (if s.buf = "" then [] else [Event.itemDoneText msgId s.buf])
    ++ s.tools.flatMap
        (fun p => [Event.argsDone p.1 p.2.arguments,
                   Event.itemDoneTool p.1 p.2.name p.2.arguments])

/-- Processing of one chunk of the `async for chunk in stream` loop
(lines 72-169): content delta, then tool-call deltas, then the finish
check. -/
def processChunk (tick : Nat → Nat) (msgId : String) (s : AsmState) (c : Chunk) :
    AsmState × List Event :=
  match c.delta with
  | none => (s, [])
  | some d =>
    let (s1, es1) :=
      match d.content with
      | some t =>
        if t = "" then (s, ([] : List Event))
        else ({ s with buf := s.buf ++ t }, [Event.textDelta t msgId (s.buf ++ t)])
      | none => (s, [])
    let (s2, es2) := processToolDeltas tick s1 d.tool_calls
    let es3 := if strTruthy c.finish_reason then finishEvents msgId s2 else []
    (s2, es1 ++ es2 ++ es3)

/-- The whole chunk loop. -/
def runChunks (tick : Nat → Nat) (msgId : String) :
    AsmState → List Chunk → AsmState × List Event
  | s, [] => (s, [])
  | s, c :: cs =>
    let (s1, es1) := processChunk tick msgId s c
    let (s2, es2) := runChunks tick msgId s1 cs
    (s2, es1 ++ es2)

/-- Outcome of consuming the provider stream: either it yields its chunks
and ends, or it yields some chunks and then raises an exception whose
`str(e)` is `msg` (a raise inside `create` itself is `failAfter [] msg`). -/
inductive Upstream where
  | ok (chunks : List Chunk)
  | failAfter (chunks : List Chunk) (msg : String)
deriving DecidableEq

/-- State at loop entry: empty buffer, empty tool dict; clock reading 0 was
consumed by `message_id`, so the loop starts at reading 1. -/
def initState : AsmState := { buf := "", tools := [], ctr := 1 }

/-- `OpenAIService.stream_chat` (lines 28-191) as a function from the
provider outcome and the clock trace to the yielded event list:
`message_id = "msg_" + str(int(time.time() * 1000))` is fixed before the
loop; a normal end of the chunk iterator is followed by one
`response.completed` event; an exception anywhere in the `try` block yields
one `error` event with `type` fixed to `"streaming_error"`.  The
`messages` and `chatbot` arguments parameterize the provider call (see
`requestParams` and `format_messages`) but do not influence which events a
given chunk sequence produces. -/
def stream_chat (tick : Nat → Nat) (messages : List ChatMessage)
    (chatbot : Chatbot) (session_id : String) (outcome : Upstream) : List Event :=
  let msgId := "msg_" ++ toString (tick 0)
  match outcome with
  | Upstream.ok chunks =>
    (runChunks tick msgId initState chunks).2 ++ [Event.completed session_id]
  | Upstream.failAfter chunks msg =>
    (runChunks tick msgId initState chunks).2 ++ [Event.streamError msg "streaming_error"]

/-- A chunk carrying exactly one nonempty text fragment. -/
def textChunk (t : String) : Chunk :=
  { delta := some { content := some t, tool_calls := [] }, finish_reason := none }

/-- A chunk carrying only a finish reason. -/
def finishChunk (reason : String) : Chunk :=
  { delta := some { content := none, tool_calls := [] }, finish_reason := some reason }

/-- One persisted conversation turn, as created by `ChatService.add_message`
for streamed assistant output. -/
structure ConversationTurn where
  role : MessageRole
  content : String
deriving DecidableEq

/-- The session fields touched by `ChatService.add_message`: the running
`message_count`, the `last_activity` timestamp, and the appended message
history. -/
structure SessionRec where
  message_count : Nat
  last_activity : Nat
  turns : List ConversationTurn
deriving DecidableEq

/-- `ChatService.add_message` (app/services/chat_service.py, lines 126-182):
one message append together with `message_count += 1` and
`last_activity = now`, committed as a single unit. -/
def add_message (s : SessionRec) (now : Nat) (role : MessageRole) (content : String) :
    SessionRec :=
  { message_count := s.message_count + 1
    last_activity := now
    turns := s.turns ++ [{ role := role, content := content }] }

/-- The persistence filter of the route's `generate` loop
(app/routers/chat.py, lines 137-146): only a `response.output_item.done`
event whose item has type "message" and role "assistant" and a nonempty
`output_text` entry triggers a save, and the saved content is that text. -/
def saveOf (e : Event) : Option String :=
  match e with
  | Event.itemDoneText _ c => if c = "" then none else some c
  | _ => none

/-- The cumulative persistence effect of the `generate` loop on the session
record: one `add_message` per qualifying event, in event order. -/
def syncEvents (now : Nat) : SessionRec → List Event → SessionRec
  | s, [] => s
  | s, e :: es =>
    match saveOf e with
    | some c => syncEvents now (add_message s now MessageRole.assistant c) es
    | none => syncEvents now s es

/-- A frame written to the SSE connection by `generate`
(app/routers/chat.py, lines 122-165): the JSON frame of one domain event,
the terminal `data: [DONE]` sentinel, or the error frame produced by the
`except` branch. -/
inductive Frame where
  | ev (e : Event)
  | sentinel
  | errFrame (msg : String)
deriving DecidableEq

/-- The `generate` coroutine of the `/api/chat/stream` route as a frame
producer.  `fails k` is the outcome of the k-th `ChatService.add_message`
call for an assistant item (`none` = success, `some m` = it raises with
message `m`).  Each event's frame is yielded before its save is attempted;
a raised save is caught by the `except` branch, which yields one error
frame and ends the generator without the sentinel; when the loop finishes,
one `[DONE]` sentinel is yielded. -/
def generate (fails : Nat → Option String) : List Event → Nat → List Frame
  | [], _ => [Frame.sentinel]
  | e :: es, k =>
    match saveOf e with
    | none => Frame.ev e :: generate fails es k
    | some _ =>
      match fails k with
      | some m => [Frame.ev e, Frame.errFrame m]
      | none => Frame.ev e :: generate fails es (k + 1)

/-- Specification-side description of the text-delta event run: the events
emitted for successive nonempty fragments, each carrying the fragment and
the cumulative buffer including it. -/
def cumEvents (msgId : String) : String → List String → List Event
  | _, [] => []
  | acc, d :: ds => Event.textDelta d msgId (acc ++ d) :: cumEvents msgId (acc ++ d) ds

/-- The truthy text fragment of a chunk, when present. -/
def textOf (c : Chunk) : Option String :=
  match c.delta with
  | none => none
  | some d =>
    match d.content with
    | none => none
    | some t => if t = "" then none else some t

/-- Concatenation of all truthy text fragments of a chunk list. -/
def concatTexts (chunks : List Chunk) : String :=
  String.join (chunks.filterMap textOf)

/-- Whether a chunk triggers the finish block: it has a choice and a truthy
finish reason. -/
def chunkFinish (c : Chunk) : Bool :=
  c.delta.isSome && strTruthy c.finish_reason

/-- A provider-supplied (truthy) tool-call id. -/
def providedId (tc : ToolDelta) : Option String :=
  match tc.id with
  | none => none
  | some i => if i = "" then none else some i

/-- The provider-supplied tool-call ids of one chunk, in order. -/
def chunkToolIds (c : Chunk) : List String :=
  match c.delta with
  | none => []
  | some d => d.tool_calls.filterMap providedId

/-- Append an id unless it is already present (first-discovery order). -/
def insertNew (acc : List String) (i : String) : List String :=
  if i ∈ acc then acc else acc ++ [i]

/-- The tool-call ids of a chunk list in first-discovery order, each once. -/
def discoverIds (chunks : List Chunk) : List String :=
  (chunks.flatMap chunkToolIds).foldl insertNew []

/-- All provider-supplied tool-call ids appearing in an upstream outcome. -/
def providedIds (outcome : Upstream) : List String :=
  match outcome with
  | Upstream.ok chunks => chunks.flatMap chunkToolIds
  | Upstream.failAfter chunks _ => chunks.flatMap chunkToolIds

/-- Events that finalize an item (`response.output_item.done`). -/
def isDoneEv : Event → Bool
  | Event.itemDoneText _ _ => true
  | Event.itemDoneTool _ _ _ => true
  | _ => false

/-- Tool-call related events (started / argument delta / arguments done /
function_call item done). -/
def isToolEv : Event → Bool
  | Event.itemAdded _ _ => true
  | Event.argDelta _ _ => true
  | Event.argsDone _ _ => true
  | Event.itemDoneTool _ _ _ => true
  | _ => false

/-- `response.completed` events. -/
def isCompletedEv : Event → Bool
  | Event.completed _ => true
  | _ => false

/-- `error` events. -/
def isErrorEv : Event → Bool
  | Event.streamError _ _ => true
  | _ => false

/-- The item ids of the `item_done` events of a stream, in emission order. -/
def doneIds (es : List Event) : List String :=
  es.filterMap (fun e =>
    match e with
    | Event.itemDoneText i _ => some i
    | Event.itemDoneTool i _ _ => some i
    | _ => none)

/-- The item ids of the `tool_call_started` (`response.output_item.added`)
events of a stream, in emission order: the first-discovery order of the
tool-call items. -/
def addedIds (es : List Event) : List String :=
  es.filterMap (fun e =>
    match e with
    | Event.itemAdded i _ => some i
    | _ => none)

/-- The item id an event is about, if any (`response.completed` carries the
session id and `error` carries no id). -/
def itemIdOf : Event → Option String
  | Event.textDelta _ i _ => some i
  | Event.itemAdded i _ => some i
  | Event.argDelta _ i => some i
  | Event.argsDone i _ => some i
  | Event.itemDoneText i _ => some i
  | Event.itemDoneTool i _ _ => some i
  | Event.completed _ => none
  | Event.streamError _ _ => none

/-- No chunk of the list triggers the finish block. -/
def noFinish (chunks : List Chunk) : Prop :=
  ∀ c ∈ chunks, chunkFinish c = false

/-- The tool-call deltas carried by a chunk. -/
def chunkToolDeltas (c : Chunk) : List ToolDelta :=
  match c.delta with
  | some d => d.tool_calls
  | none => []

/-- Every tool-call delta of the chunk list carries a truthy provider id. -/
def allIdsProvided (chunks : List Chunk) : Prop :=
  ∀ c ∈ chunks, ∀ tc ∈ chunkToolDeltas c, (providedId tc).isSome = true

/-- Events of the text item: `response.output_text.delta` and the text
`response.output_item.done`. -/
def isTextEv : Event → Bool
  | Event.textDelta _ _ _ => true
  | Event.itemDoneText _ _ => true
  | _ => false

/-! ### Concrete fixtures used by witnesses and counterexamples -/

/-- A clock trace on which every `int(time.time() * 1000)` reading is 1. -/
def tickOne : Nat → Nat := fun _ => 1

/-- A clock trace on which every `int(time.time() * 1000)` reading is 2. -/
def tickTwo : Nat → Nat := fun _ => 2

/-- A chatbot row with every optional AI field NULL and no system prompt. -/
def botNull : Chatbot := ⟨none, "", none, none, none, none, none, []⟩

/-- A chatbot row whose temperature is explicitly set to 0.0. -/
def botZeroTemp : Chatbot := ⟨none, "", some 0, none, none, none, none, []⟩

/-- A chatbot row with a nonempty system prompt. -/
def botSys : Chatbot := ⟨none, "You are helpful.", none, none, none, none, none, []⟩

/-- The `Settings` defaults of app/core/config.py. -/
def defaultSettings : Settings := ⟨"gpt-4o", 4096, 7 / 10⟩

/-- A fresh session record. -/
def sessNull : SessionRec := ⟨0, 0, []⟩

/-- A stored user message. -/
def msgUser : ChatMessage := ⟨MessageRole.user, MessageType.message, some "hi"⟩

/-- A chunk carrying one tool-call delta with provider id "c1", name
"get_weather" and an argument fragment. -/
def toolChunkW : Chunk :=
  { delta := some ⟨none, [⟨some "c1", some ⟨some "get_weather", some "x"⟩⟩]⟩,
    finish_reason := none }

/-- A chunk carrying one tool-call delta with no provider id, exercising
the clock-derived fallback id of openai_service.py line 93. -/
def toolChunkAnon : Chunk :=
  { delta := some ⟨none, [⟨none, some ⟨some "fn", some "y"⟩⟩]⟩,
    finish_reason := none }

/-! ### Basic lemmas about the embedded definitions -/

theorem runChunks_append (tick : Nat → Nat) (msgId : String) (xs ys : List Chunk)
    (s : AsmState) :
    runChunks tick msgId s (xs ++ ys) =
      ((runChunks tick msgId (runChunks tick msgId s xs).1 ys).1,
       (runChunks tick msgId s xs).2 ++ (runChunks tick msgId (runChunks tick msgId s xs).1 ys).2) := by
  induction xs generalizing s with
  | nil => simp [runChunks]
  | cons c cs ih =>
    simp only [List.cons_append, runChunks, List.append_eq]
    rw [ih]
    simp [List.append_assoc]

theorem string_append_eq_empty_iff (a b : String) : a ++ b = "" ↔ a = "" ∧ b = "" := by
  constructor
  · intro h
    have hd : (a ++ b).data = a.data ++ b.data := String.data_append a b
    rw [h] at hd
    have : a.data ++ b.data = [] := hd.symm
    rcases List.append_eq_nil.mp this with ⟨ha, hb⟩
    cases a; cases b; simp_all
  · rintro ⟨rfl, rfl⟩; rfl

theorem string_join_cons (a : String) (s : List String) :
    String.join (a :: s) = a ++ String.join s := by
  have shift : ∀ (l : List String) (x : String),
      l.foldl (fun r t => r ++ t) x = x ++ l.foldl (fun r t => r ++ t) "" := by
    intro l
    induction l with
    | nil => intro x; simp [List.foldl]
    | cons y ys ih =>
      intro x
      simp only [List.foldl]
      rw [ih (x ++ y), ih ("" ++ y)]
      rw [String.empty_append, String.append_assoc]
  simp only [String.join, List.foldl]
  rw [shift s ("" ++ a), String.empty_append]

theorem processToolDeltas_nil (tick : Nat → Nat) (s : AsmState) :
    processToolDeltas tick s [] = (s, []) := rfl

theorem processChunk_textChunk (tick : Nat → Nat) (msgId : String) (s : AsmState)
    (t : String) (ht : t ≠ "") :
    processChunk tick msgId s (textChunk t) =
      ({ s with buf := s.buf ++ t }, [Event.textDelta t msgId (s.buf ++ t)]) := by
  simp [processChunk, textChunk, processToolDeltas, strTruthy, ht]

theorem processChunk_finishChunk (tick : Nat → Nat) (msgId : String) (s : AsmState)
    (reason : String) (hr : reason ≠ "") :
    processChunk tick msgId s (finishChunk reason) = (s, finishEvents msgId s) := by
  simp [processChunk, finishChunk, processToolDeltas, strTruthy, hr]

theorem runChunks_textOnly (tick : Nat → Nat) (msgId : String) (deltas : List String)
    (h : ∀ d ∈ deltas, d ≠ "") (acc : String) (ts : List (String × ToolEntry)) (k : Nat) :
    runChunks tick msgId ⟨acc, ts, k⟩ (deltas.map textChunk) =
      (⟨acc ++ String.join deltas, ts, k⟩, cumEvents msgId acc deltas) := by
  induction deltas generalizing acc with
  | nil =>
    simp [runChunks, cumEvents, String.join, List.foldl, String.append_empty]
  | cons d ds ih =>
    have hd : d ≠ "" := h d (List.mem_cons_self d ds)
    have hds : ∀ x ∈ ds, x ≠ "" := fun x hx => h x (List.mem_cons_of_mem d hx)
    simp only [List.map_cons, runChunks]
    rw [processChunk_textChunk tick msgId ⟨acc, ts, k⟩ d hd]
    rw [ih hds (acc ++ d)]
    simp [cumEvents, string_join_cons, String.append_assoc]

theorem string_join_ne_empty (d : String) (ds : List String) (hd : d ≠ "") :
    String.join (d :: ds) ≠ "" := by
  rw [string_join_cons]
  intro h
  exact hd (string_append_eq_empty_iff d (String.join ds) |>.mp h).1

theorem cumEvents_textDelta (msgId : String) (acc : String) (ds : List String) :
    ∀ e ∈ cumEvents msgId acc ds, ∃ d t, e = Event.textDelta d msgId t := by
  induction ds generalizing acc with
  | nil => intro e he; simp [cumEvents] at he
  | cons d rest ih =>
    intro e he
    simp only [cumEvents, List.mem_cons] at he
    rcases he with rfl | he
    · exact ⟨d, acc ++ d, rfl⟩
    · exact ih (acc ++ d) e he

theorem syncEvents_spec (now : Nat) (s : SessionRec) (es : List Event) :
    syncEvents now s es =
      { message_count := s.message_count + (es.filterMap saveOf).length
        last_activity := if es.filterMap saveOf = [] then s.last_activity else now
        turns := s.turns ++ (es.filterMap saveOf).map (fun c => ⟨MessageRole.assistant, c⟩) } := by
  induction es generalizing s with
  | nil => simp [syncEvents]
  | cons e rest ih =>
    cases hsv : saveOf e with
    | none =>
      simp only [syncEvents, hsv]
      rw [ih]
      simp [List.filterMap_cons, hsv]
    | some c =>
      simp only [syncEvents, hsv]
      rw [ih]
      simp [List.filterMap_cons, hsv, add_message, Nat.add_comm, Nat.add_assoc,
        Nat.add_left_comm, List.append_assoc]

theorem filterMap_saveOf_cumEvents (msgId acc : String) (ds : List String) :
    (cumEvents msgId acc ds).filterMap saveOf = [] := by
  induction ds generalizing acc with
  | nil => simp [cumEvents]
  | cons d rest ih => simp [cumEvents, List.filterMap_cons, saveOf, ih]

theorem formatLoop_eq_filterMap (msgs : List ChatMessage) :
    formatLoop msgs = msgs.filterMap to_openai_format := by
  induction msgs with
  | nil => rfl
  | cons m rest ih =>
    cases h : to_openai_format m <;> simp [formatLoop, h, List.filterMap_cons, ih]

theorem hasTool_iff (ts : List (String × ToolEntry)) (tid : String) :
    hasTool ts tid = true ↔ tid ∈ ts.map Prod.fst := by
  simp only [hasTool, List.any_eq_true, decide_eq_true_eq, List.mem_map]

theorem keys_appendArgs (ts : List (String × ToolEntry)) (tid frag : String) :
    (appendArgs ts tid frag).map Prod.fst = ts.map Prod.fst := by
  unfold appendArgs
  rw [List.map_map]
  apply List.map_congr_left
  intro p _
  by_cases h : p.1 = tid <;> simp [h]

theorem resolveToolId_spec (tick : Nat → Nat) (s : AsmState) (tc : ToolDelta) :
    providedId tc = some (resolveToolId tick s tc).1 ∨
      (resolveToolId tick s tc).1 = "tool_" ++ toString (tick s.ctr) := by
  rcases tc with ⟨oid, ofn⟩
  rcases oid with _ | i
  · exact Or.inr rfl
  · by_cases hi : i = ""
    · subst hi
      simp [resolveToolId]
    · simp [resolveToolId, providedId, hi]

theorem processToolDelta_mem (tick : Nat → Nat) (s : AsmState) (tc : ToolDelta)
    (e : Event) (he : e ∈ (processToolDelta tick s tc).2) :
    ∃ tid, ((∃ nm, e = Event.itemAdded tid nm) ∨ ∃ a, e = Event.argDelta a tid)
      ∧ (providedId tc = some tid ∨ tid = "tool_" ++ toString (tick s.ctr)) := by
  have hprov := resolveToolId_spec tick s tc
  obtain ⟨tid, c2, hres⟩ : ∃ tid c2, resolveToolId tick s tc = (tid, c2) :=
    ⟨(resolveToolId tick s tc).1, (resolveToolId tick s tc).2, rfl⟩
  rw [hres] at hprov
  refine ⟨tid, ?_, hprov⟩
  rcases tc with ⟨oid, ofn⟩
  simp only [processToolDelta, hres] at he
  by_cases ht : hasTool s.tools tid
  · rcases ofn with _ | ⟨fnm, fargs⟩
    · simp [ht] at he
    · rcases fargs with _ | a
      · simp [ht] at he
      · by_cases ha : a = ""
        · simp [ht, ha] at he
        · simp [ht, ha] at he
          exact Or.inr ⟨a, he⟩
  · rcases ofn with _ | ⟨fnm, fargs⟩
    · simp [ht] at he
      exact Or.inl ⟨none, he⟩
    · rcases fargs with _ | a
      · simp [ht] at he
        exact Or.inl ⟨fnm, he⟩
      · by_cases ha : a = ""
        · simp [ht, ha] at he
          exact Or.inl ⟨fnm, he⟩
        · simp [ht, ha] at he
          rcases he with rfl | rfl
          · exact Or.inl ⟨fnm, rfl⟩
          · exact Or.inr ⟨a, rfl⟩

theorem processToolDelta_state (tick : Nat → Nat) (s : AsmState) (tc : ToolDelta) :
    (processToolDelta tick s tc).1.buf = s.buf
    ∧ (processToolDelta tick s tc).1.tools.map Prod.fst =
        insertNew (s.tools.map Prod.fst) (resolveToolId tick s tc).1 := by
  obtain ⟨tid, c2, hres⟩ : ∃ tid c2, resolveToolId tick s tc = (tid, c2) :=
    ⟨(resolveToolId tick s tc).1, (resolveToolId tick s tc).2, rfl⟩
  rcases tc with ⟨oid, ofn⟩
  simp only [processToolDelta, hres]
  by_cases ht : hasTool s.tools tid
  · have hmem := (hasTool_iff s.tools tid).mp ht
    rcases ofn with _ | ⟨fnm, fargs⟩
    · simp [ht, insertNew, hmem]
    · rcases fargs with _ | a
      · simp [ht, insertNew, hmem]
      · by_cases ha : a = ""
        · simp [ht, ha, insertNew, hmem]
        · simp [ht, ha, insertNew, hmem, keys_appendArgs]
  · have hmem : tid ∉ s.tools.map Prod.fst := fun hm => ht ((hasTool_iff s.tools tid).mpr hm)
    rcases ofn with _ | ⟨fnm, fargs⟩
    · simp [ht, insertNew, hmem]
    · rcases fargs with _ | a
      · simp [ht, insertNew, hmem]
      · by_cases ha : a = ""
        · simp [ht, ha, insertNew, hmem]
        · simp [ht, ha, insertNew, hmem, keys_appendArgs]

theorem resolveToolId_provided (tick : Nat → Nat) (s : AsmState) (tc : ToolDelta)
    (i : String) (h : providedId tc = some i) :
    resolveToolId tick s tc = (i, s.ctr) := by
  rcases tc with ⟨oid, ofn⟩
  rcases oid with _ | j
  · simp [providedId] at h
  · by_cases hj : j = ""
    · simp [providedId, hj] at h
    · have hji : j = i := by simpa [providedId, hj] using h
      subst hji
      simp [resolveToolId, hj]

theorem mem_insertNew (l : List String) (x i : String) (h : i ∈ insertNew l x) :
    i ∈ l ∨ i = x := by
  by_cases hx : x ∈ l
  · simp [insertNew, hx] at h
    exact Or.inl h
  · simp only [insertNew, hx, if_neg, List.mem_append, List.mem_singleton] at h
    simpa using h

theorem processToolDeltas_mem (tick : Nat → Nat) (tds : List ToolDelta) :
    ∀ (s : AsmState) (e : Event), e ∈ (processToolDeltas tick s tds).2 →
      ∃ tid, ((∃ nm, e = Event.itemAdded tid nm) ∨ ∃ a, e = Event.argDelta a tid)
        ∧ ((∃ tc ∈ tds, providedId tc = some tid)
            ∨ ∃ k, tid = "tool_" ++ toString (tick k)) := by
  induction tds with
  | nil => intro s e he; simp [processToolDeltas] at he
  | cons tc rest ih =>
    intro s e he
    obtain ⟨s1, es1, hpd⟩ : ∃ s1 es1, processToolDelta tick s tc = (s1, es1) := ⟨_, _, rfl⟩
    obtain ⟨s2, es2, hrec⟩ : ∃ s2 es2, processToolDeltas tick s1 rest = (s2, es2) :=
      ⟨_, _, rfl⟩
    simp only [processToolDeltas, hpd, hrec] at he
    rcases List.mem_append.mp he with h1 | h2
    · obtain ⟨tid, hshape, hsrc⟩ :=
        processToolDelta_mem tick s tc e (by rw [hpd]; exact h1)
      refine ⟨tid, hshape, ?_⟩
      rcases hsrc with h | h
      · exact Or.inl ⟨tc, List.mem_cons_self tc rest, h⟩
      · exact Or.inr ⟨s.ctr, h⟩
    · obtain ⟨tid, hshape, hsrc⟩ := ih s1 e (by rw [hrec]; exact h2)
      refine ⟨tid, hshape, ?_⟩
      rcases hsrc with ⟨tc2, htc2, h⟩ | h
      · exact Or.inl ⟨tc2, List.mem_cons_of_mem tc htc2, h⟩
      · exact Or.inr h

theorem processToolDeltas_state (tick : Nat → Nat) (tds : List ToolDelta) :
    ∀ s : AsmState,
      (processToolDeltas tick s tds).1.buf = s.buf
      ∧ ∀ i ∈ (processToolDeltas tick s tds).1.tools.map Prod.fst,
          i ∈ s.tools.map Prod.fst ∨ (∃ tc ∈ tds, providedId tc = some i)
          ∨ ∃ k, i = "tool_" ++ toString (tick k) := by
  induction tds with
  | nil => intro s; exact ⟨rfl, fun i hi => Or.inl hi⟩
  | cons tc rest ih =>
    intro s
    obtain ⟨s1, es1, hpd⟩ : ∃ s1 es1, processToolDelta tick s tc = (s1, es1) := ⟨_, _, rfl⟩
    obtain ⟨s2, es2, hrec⟩ : ∃ s2 es2, processToolDeltas tick s1 rest = (s2, es2) :=
      ⟨_, _, rfl⟩
    obtain ⟨hbuf, hkeys⟩ := processToolDelta_state tick s tc
    rw [hpd] at hbuf hkeys
    obtain ⟨ihbuf, ihkeys⟩ := ih s1
    rw [hrec] at ihbuf ihkeys
    have hsrc := resolveToolId_spec tick s tc
    constructor
    · simp only [processToolDeltas, hpd, hrec]
      rw [ihbuf, hbuf]
    · intro i hi
      simp only [processToolDeltas, hpd, hrec] at hi
      rcases ihkeys i hi with h1 | ⟨tc2, htc2, h⟩ | h
      · rw [hkeys] at h1
        rcases mem_insertNew _ _ _ h1 with hl | rfl
        · exact Or.inl hl
        · rcases hsrc with h | h
          · exact Or.inr (Or.inl ⟨tc, List.mem_cons_self tc rest, h⟩)
          · exact Or.inr (Or.inr ⟨s.ctr, h⟩)
      · exact Or.inr (Or.inl ⟨tc2, List.mem_cons_of_mem tc htc2, h⟩)
      · exact Or.inr (Or.inr h)

theorem processToolDeltas_keys (tick : Nat → Nat) (tds : List ToolDelta)
    (hall : ∀ tc ∈ tds, (providedId tc).isSome) :
    ∀ s : AsmState,
      (processToolDeltas tick s tds).1.tools.map Prod.fst =
        (tds.filterMap providedId).foldl insertNew (s.tools.map Prod.fst) := by
  induction tds with
  | nil => intro s; rfl
  | cons tc rest ih =>
    intro s
    obtain ⟨i, hi⟩ := Option.isSome_iff_exists.mp (hall tc (List.mem_cons_self tc rest))
    obtain ⟨s1, es1, hpd⟩ : ∃ s1 es1, processToolDelta tick s tc = (s1, es1) := ⟨_, _, rfl⟩
    obtain ⟨s2, es2, hrec⟩ : ∃ s2 es2, processToolDeltas tick s1 rest = (s2, es2) :=
      ⟨_, _, rfl⟩
    obtain ⟨hbuf, hkeys⟩ := processToolDelta_state tick s tc
    rw [hpd] at hbuf hkeys
    rw [resolveToolId_provided tick s tc i hi] at hkeys
    have ihk := ih (fun tc2 htc2 => hall tc2 (List.mem_cons_of_mem tc htc2)) s1
    rw [hrec] at ihk
    simp only [processToolDeltas, hpd, hrec]
    rw [ihk, hkeys]
    simp [List.filterMap_cons, hi]

theorem finishEvents_mem (msgId : String) (s : AsmState) (e : Event)
    (he : e ∈ finishEvents msgId s) :
    e = Event.itemDoneText msgId s.buf
    ∨ ∃ p ∈ s.tools, e = Event.argsDone p.1 p.2.arguments
        ∨ e = Event.itemDoneTool p.1 p.2.name p.2.arguments := by
  simp only [finishEvents, List.mem_append] at he
  rcases he with h | h
  · by_cases hb : s.buf = ""
    · simp [hb] at h
    · simp only [hb, if_neg, List.mem_singleton] at h
      exact Or.inl (by simpa using h)
  · obtain ⟨p, hp, hmem⟩ := List.mem_flatMap.mp h
    simp only [List.mem_cons, List.not_mem_nil, or_false] at hmem
    rcases hmem with rfl | rfl
    · exact Or.inr ⟨p, hp, Or.inl rfl⟩
    · exact Or.inr ⟨p, hp, Or.inr rfl⟩

theorem processChunk_eq (tick : Nat → Nat) (msgId : String) (s : AsmState)
    (oc : Option String) (tcs : List ToolDelta) (fin : Option String) :
    processChunk tick msgId s ⟨some ⟨oc, tcs⟩, fin⟩ =
      (let s1 : AsmState :=
        match textOf ⟨some ⟨oc, tcs⟩, fin⟩ with
        | some t => { s with buf := s.buf ++ t }
        | none => s
      let es1 : List Event :=
        match textOf ⟨some ⟨oc, tcs⟩, fin⟩ with
        | some t => [Event.textDelta t msgId (s.buf ++ t)]
        | none => []
      ((processToolDeltas tick s1 tcs).1,
        es1 ++ (processToolDeltas tick s1 tcs).2 ++
          (if strTruthy fin = true
            then finishEvents msgId (processToolDeltas tick s1 tcs).1 else []))) := by
  rcases oc with _ | t
  · rfl
  · by_cases hte : t = ""
    · subst hte
      simp [processChunk, textOf]
    · simp [processChunk, textOf, hte]

theorem processChunk_mem (tick : Nat → Nat) (msgId : String) (c : Chunk) (s : AsmState)
    (e : Event) (he : e ∈ (processChunk tick msgId s c).2) :
    (∃ t, e = Event.textDelta t msgId (s.buf ++ t))
    ∨ (∃ tid, ((∃ nm, e = Event.itemAdded tid nm) ∨ ∃ a, e = Event.argDelta a tid)
        ∧ (tid ∈ chunkToolIds c ∨ ∃ k, tid = "tool_" ++ toString (tick k)))
    ∨ (chunkFinish c = true ∧ e ∈ finishEvents msgId (processChunk tick msgId s c).1) := by
  rcases c with ⟨od, fin⟩
  rcases od with _ | d
  · simp [processChunk] at he
  · rcases d with ⟨oc, tcs⟩
    have hTool : ∀ s1 : AsmState, e ∈ (processToolDeltas tick s1 tcs).2 →
        ∃ tid, ((∃ nm, e = Event.itemAdded tid nm) ∨ ∃ a, e = Event.argDelta a tid)
          ∧ (tid ∈ chunkToolIds ⟨some ⟨oc, tcs⟩, fin⟩
              ∨ ∃ k, tid = "tool_" ++ toString (tick k)) := by
      intro s1 hm
      obtain ⟨tid, hshape, hsrc⟩ := processToolDeltas_mem tick tcs s1 e hm
      refine ⟨tid, hshape, ?_⟩
      rcases hsrc with ⟨tc, htc, h⟩ | h
      · exact Or.inl (by simpa [chunkToolIds] using List.mem_filterMap.mpr ⟨tc, htc, h⟩)
      · exact Or.inr h
    rw [processChunk_eq] at he ⊢
    rcases htx : textOf ⟨some ⟨oc, tcs⟩, fin⟩ with _ | t
    all_goals simp only [htx] at he ⊢
    · rcases List.mem_append.mp he with hm1 | hm2
      · rcases List.mem_append.mp hm1 with h1 | h2
        · simp at h1
        · exact Or.inr (Or.inl (hTool s h2))
      · by_cases hf : strTruthy fin = true
        · rw [if_pos hf] at hm2
          exact Or.inr (Or.inr ⟨by simp [chunkFinish, hf], hm2⟩)
        · rw [if_neg hf] at hm2
          simp at hm2
    · rcases List.mem_append.mp he with hm1 | hm2
      · rcases List.mem_append.mp hm1 with h1 | h2
        · simp only [List.mem_singleton] at h1
          exact Or.inl ⟨t, h1⟩
        · exact Or.inr (Or.inl (hTool _ h2))
      · by_cases hf : strTruthy fin = true
        · rw [if_pos hf] at hm2
          exact Or.inr (Or.inr ⟨by simp [chunkFinish, hf], hm2⟩)
        · rw [if_neg hf] at hm2
          simp at hm2

theorem processChunk_state (tick : Nat → Nat) (msgId : String) (c : Chunk) (s : AsmState) :
    (processChunk tick msgId s c).1.buf = s.buf ++ (textOf c).getD ""
    ∧ ∀ i ∈ (processChunk tick msgId s c).1.tools.map Prod.fst,
        i ∈ s.tools.map Prod.fst ∨ i ∈ chunkToolIds c
        ∨ ∃ k, i = "tool_" ++ toString (tick k) := by
  rcases c with ⟨od, fin⟩
  rcases od with _ | d
  · refine ⟨?_, fun i hi => Or.inl hi⟩
    simp [processChunk, textOf, String.append_empty]
  · rcases d with ⟨oc, tcs⟩
    have hmap : ∀ s1 : AsmState, ∀ i ∈ (processToolDeltas tick s1 tcs).1.tools.map Prod.fst,
        i ∈ s1.tools.map Prod.fst ∨ i ∈ chunkToolIds ⟨some ⟨oc, tcs⟩, fin⟩
        ∨ ∃ k, i = "tool_" ++ toString (tick k) := by
      intro s1 i hi
      rcases (processToolDeltas_state tick tcs s1).2 i hi with h | ⟨tc, htc, h⟩ | h
      · exact Or.inl h
      · exact Or.inr (Or.inl (by simpa [chunkToolIds] using List.mem_filterMap.mpr ⟨tc, htc, h⟩))
      · exact Or.inr (Or.inr h)
    rw [processChunk_eq]
    rcases htx : textOf ⟨some ⟨oc, tcs⟩, fin⟩ with _ | t
    all_goals simp only [htx]
    · refine ⟨?_, ?_⟩
      · rw [(processToolDeltas_state tick tcs s).1]
        simp [String.append_empty]
      · intro i hi
        exact hmap s i hi
    · refine ⟨?_, ?_⟩
      · rw [(processToolDeltas_state tick tcs { s with buf := s.buf ++ t }).1]
        rfl
      · intro i hi
        have := hmap { s with buf := s.buf ++ t } i hi
        simpa using this

theorem processChunk_keys (tick : Nat → Nat) (msgId : String) (c : Chunk) (s : AsmState)
    (hall : ∀ tc ∈ chunkToolDeltas c, (providedId tc).isSome = true) :
    (processChunk tick msgId s c).1.tools.map Prod.fst =
      (chunkToolIds c).foldl insertNew (s.tools.map Prod.fst) := by
  rcases c with ⟨od, fin⟩
  rcases od with _ | d
  · simp [processChunk, chunkToolIds]
  · rcases d with ⟨oc, tcs⟩
    have hall2 : ∀ tc ∈ tcs, (providedId tc).isSome := fun tc htc => hall tc htc
    have hkeys := processToolDeltas_keys tick tcs hall2
    rw [processChunk_eq]
    rcases htx : textOf ⟨some ⟨oc, tcs⟩, fin⟩ with _ | t
    all_goals simp only [htx]
    · rw [hkeys s]
      simp [chunkToolIds]
    · rw [hkeys { s with buf := s.buf ++ t }]
      simp [chunkToolIds]

theorem runChunks_eq_cons (tick : Nat → Nat) (msgId : String) (s : AsmState)
    (c : Chunk) (cs : List Chunk) :
    runChunks tick msgId s (c :: cs) =
      ((runChunks tick msgId (processChunk tick msgId s c).1 cs).1,
        (processChunk tick msgId s c).2 ++
          (runChunks tick msgId (processChunk tick msgId s c).1 cs).2) := rfl

theorem runChunks_mem (tick : Nat → Nat) (msgId : String) :
    ∀ (chunks : List Chunk) (s : AsmState) (e : Event),
      e ∈ (runChunks tick msgId s chunks).2 →
      (∃ d t, e = Event.textDelta d msgId t)
      ∨ (∃ tid nm, e = Event.itemAdded tid nm)
      ∨ (∃ a tid, e = Event.argDelta a tid)
      ∨ (∃ tid args, e = Event.argsDone tid args)
      ∨ (∃ c2, e = Event.itemDoneText msgId c2)
      ∨ (∃ tid nm args, e = Event.itemDoneTool tid nm args) := by
  intro chunks
  induction chunks with
  | nil => intro s e he; simp [runChunks] at he
  | cons c cs ih =>
    intro s e he
    rw [runChunks_eq_cons] at he
    rcases List.mem_append.mp he with h1 | h2
    · rcases processChunk_mem tick msgId c s e h1 with ⟨t, rfl⟩ | ⟨tid, hsh, hsrc⟩ | ⟨hf, hfe⟩
      · exact Or.inl ⟨t, s.buf ++ t, rfl⟩
      · rcases hsh with ⟨nm, rfl⟩ | ⟨a, rfl⟩
        · exact Or.inr (Or.inl ⟨tid, nm, rfl⟩)
        · exact Or.inr (Or.inr (Or.inl ⟨a, tid, rfl⟩))
      · rcases finishEvents_mem msgId _ e hfe with rfl | ⟨p, hp, rfl | rfl⟩
        · exact Or.inr (Or.inr (Or.inr (Or.inr (Or.inl ⟨_, rfl⟩))))
        · exact Or.inr (Or.inr (Or.inr (Or.inl ⟨_, _, rfl⟩)))
        · exact Or.inr (Or.inr (Or.inr (Or.inr (Or.inr ⟨_, _, _, rfl⟩))))
    · exact ih _ e h2

theorem runChunks_noDone (tick : Nat → Nat) (msgId : String) :
    ∀ (chunks : List Chunk), noFinish chunks →
      ∀ (s : AsmState) (e : Event), e ∈ (runChunks tick msgId s chunks).2 →
        isDoneEv e = false := by
  intro chunks
  induction chunks with
  | nil => intro _ s e he; simp [runChunks] at he
  | cons c cs ih =>
    intro hnf s e he
    rw [runChunks_eq_cons] at he
    rcases List.mem_append.mp he with h1 | h2
    · rcases processChunk_mem tick msgId c s e h1 with ⟨t, rfl⟩ | ⟨tid, hsh, hsrc⟩ | ⟨hf, hfe⟩
      · rfl
      · rcases hsh with ⟨nm, rfl⟩ | ⟨a, rfl⟩ <;> rfl
      · rw [hnf c (List.mem_cons_self c cs)] at hf
        exact absurd hf (by simp)
    · exact ih (fun c2 hc2 => hnf c2 (List.mem_cons_of_mem c hc2)) _ e h2

theorem runChunks_ids (tick : Nat → Nat) (msgId : String) :
    ∀ (chunks : List Chunk) (s : AsmState) (e : Event),
      e ∈ (runChunks tick msgId s chunks).2 → ∀ i, itemIdOf e = some i →
        i = msgId ∨ i ∈ chunks.flatMap chunkToolIds
        ∨ (∃ k, i = "tool_" ++ toString (tick k)) ∨ i ∈ s.tools.map Prod.fst := by
  intro chunks
  induction chunks with
  | nil => intro s e he; simp [runChunks] at he
  | cons c cs ih =>
    intro s e he i hid
    have liftC : i ∈ chunkToolIds c → i ∈ (c :: cs).flatMap chunkToolIds := by
      intro h
      exact List.mem_flatMap.mpr ⟨c, List.mem_cons_self c cs, h⟩
    have liftState : i ∈ (processChunk tick msgId s c).1.tools.map Prod.fst →
        i = msgId ∨ i ∈ (c :: cs).flatMap chunkToolIds
        ∨ (∃ k, i = "tool_" ++ toString (tick k)) ∨ i ∈ s.tools.map Prod.fst := by
      intro h
      rcases (processChunk_state tick msgId c s).2 i h with h2 | h2 | h2
      · exact Or.inr (Or.inr (Or.inr h2))
      · exact Or.inr (Or.inl (liftC h2))
      · exact Or.inr (Or.inr (Or.inl h2))
    rw [runChunks_eq_cons] at he
    rcases List.mem_append.mp he with h1 | h2
    · rcases processChunk_mem tick msgId c s e h1 with ⟨t, rfl⟩ | ⟨tid, hsh, hsrc⟩ | ⟨hf, hfe⟩
      · simp only [itemIdOf, Option.some.injEq] at hid
        exact Or.inl hid.symm
      · have hit : i = tid := by
          rcases hsh with ⟨nm, rfl⟩ | ⟨a, rfl⟩ <;>
            simpa [itemIdOf] using hid.symm
        subst hit
        rcases hsrc with h | h
        · exact Or.inr (Or.inl (liftC h))
        · exact Or.inr (Or.inr (Or.inl h))
      · rcases finishEvents_mem msgId _ e hfe with rfl | ⟨p, hp, rfl | rfl⟩
        · simp only [itemIdOf, Option.some.injEq] at hid
          exact Or.inl hid.symm
        · have hip : i = p.1 := by simpa [itemIdOf] using hid.symm
          subst hip
          exact liftState (List.mem_map_of_mem Prod.fst hp)
        · have hip : i = p.1 := by simpa [itemIdOf] using hid.symm
          subst hip
          exact liftState (List.mem_map_of_mem Prod.fst hp)
    · rcases ih _ e h2 i hid with h | h | h | h
      · exact Or.inl h
      · refine Or.inr (Or.inl ?_)
        obtain ⟨c2, hc2, hm⟩ := List.mem_flatMap.mp h
        exact List.mem_flatMap.mpr ⟨c2, List.mem_cons_of_mem c hc2, hm⟩
      · exact Or.inr (Or.inr (Or.inl h))
      · exact liftState h

theorem concatTexts_cons (c : Chunk) (cs : List Chunk) :
    concatTexts (c :: cs) = (textOf c).getD "" ++ concatTexts cs := by
  cases htx : textOf c
  · simp [concatTexts, List.filterMap_cons, htx, String.empty_append]
  · simp [concatTexts, List.filterMap_cons, htx, string_join_cons]

theorem runChunks_buf (tick : Nat → Nat) (msgId : String) :
    ∀ (chunks : List Chunk) (s : AsmState),
      (runChunks tick msgId s chunks).1.buf = s.buf ++ concatTexts chunks := by
  intro chunks
  induction chunks with
  | nil =>
    intro s
    have h0 : concatTexts [] = "" := rfl
    simp [runChunks, h0, String.append_empty]
  | cons c cs ih =>
    intro s
    rw [runChunks_eq_cons]
    show (runChunks tick msgId (processChunk tick msgId s c).1 cs).1.buf = _
    rw [ih (processChunk tick msgId s c).1, (processChunk_state tick msgId c s).1,
      concatTexts_cons, String.append_assoc]

theorem runChunks_keys (tick : Nat → Nat) (msgId : String) :
    ∀ (chunks : List Chunk), allIdsProvided chunks →
      ∀ s : AsmState,
        (runChunks tick msgId s chunks).1.tools.map Prod.fst =
          (chunks.flatMap chunkToolIds).foldl insertNew (s.tools.map Prod.fst) := by
  intro chunks
  induction chunks with
  | nil => intro _ s; rfl
  | cons c cs ih =>
    intro hall s
    have hallc : ∀ tc ∈ chunkToolDeltas c, (providedId tc).isSome = true :=
      fun tc htc => hall c (List.mem_cons_self c cs) tc htc
    have hallcs : allIdsProvided cs :=
      fun c2 hc2 tc htc => hall c2 (List.mem_cons_of_mem c hc2) tc htc
    rw [runChunks_eq_cons]
    show (runChunks tick msgId (processChunk tick msgId s c).1 cs).1.tools.map Prod.fst = _
    rw [ih hallcs, processChunk_keys tick msgId c s hallc, List.flatMap_cons,
      List.foldl_append]

theorem insertNew_nodup (acc : List String) (x : String) (h : acc.Nodup) :
    (insertNew acc x).Nodup := by
  by_cases hx : x ∈ acc
  · simpa [insertNew, hx] using h
  · rw [insertNew, if_neg hx]
    rw [List.nodup_append]
    exact ⟨h, List.nodup_singleton x, fun a ha => by simp; rintro rfl; exact hx ha⟩

theorem foldl_insertNew_nodup (l : List String) :
    ∀ acc : List String, acc.Nodup → (l.foldl insertNew acc).Nodup := by
  induction l with
  | nil => intro acc h; exact h
  | cons x xs ih => intro acc h; exact ih _ (insertNew_nodup acc x h)

theorem doneIds_append (a b : List Event) : doneIds (a ++ b) = doneIds a ++ doneIds b := by
  simp [doneIds, List.filterMap_append]

theorem doneIds_eq_nil (es : List Event) (h : ∀ e ∈ es, isDoneEv e = false) :
    doneIds es = [] := by
  refine List.filterMap_eq_nil.mpr ?_
  intro e he
  have := h e he
  cases e <;> simp_all [isDoneEv]

theorem doneIds_toolBlock (ts : List (String × ToolEntry)) :
    doneIds (ts.flatMap (fun p => [Event.argsDone p.1 p.2.arguments,
        Event.itemDoneTool p.1 p.2.name p.2.arguments])) = ts.map Prod.fst := by
  induction ts with
  | nil => rfl
  | cons p ps ih =>
    simp only [List.flatMap_cons, doneIds, List.filterMap_append] at ih ⊢
    simp [List.filterMap_cons, ih]

theorem doneIds_finishEvents (msgId : String) (s : AsmState) :
    doneIds (finishEvents msgId s) =
      (if s.buf = "" then [] else [msgId]) ++ s.tools.map Prod.fst := by
  by_cases hb : s.buf = ""
  · simp [finishEvents, hb, doneIds_toolBlock]
  · unfold finishEvents
    rw [if_neg hb, doneIds_append, doneIds_toolBlock]
    simp [hb, doneIds, List.filterMap_cons]

/-! ### Claim theorems -/

/-- C1: for every chunk sequence of nonempty text content deltas followed by
a finish signal, whose deltas concatenate to `S = String.join deltas`,
`stream_chat` emits exactly the cumulative `text_delta` events (each
carrying the incremental fragment and the cumulative buffer so far), then
one text `item_done` whose content is exactly `S`, then the completion
event; no `tool_call_*` event is emitted; and the turn the route persists
from these events has content exactly `S`. -/
theorem c1_text_stream_exact (tick : Nat → Nat) (msgs : List ChatMessage)
    (bot : Chatbot) (sid : String) (deltas : List String) (reason : String)
    (now : Nat) (sess : SessionRec)
    (hne : deltas ≠ []) (hd : ∀ d ∈ deltas, d ≠ "") (hr : reason ≠ "") :
    stream_chat tick msgs bot sid
        (Upstream.ok (deltas.map textChunk ++ [finishChunk reason])) =
      cumEvents ("msg_" ++ toString (tick 0)) "" deltas ++
        [Event.itemDoneText ("msg_" ++ toString (tick 0)) (String.join deltas),
         Event.completed sid]
    ∧ (∀ e ∈ stream_chat tick msgs bot sid
          (Upstream.ok (deltas.map textChunk ++ [finishChunk reason])),
        isToolEv e = false)
    ∧ (syncEvents now sess (stream_chat tick msgs bot sid
          (Upstream.ok (deltas.map textChunk ++ [finishChunk reason])))).turns =
        sess.turns ++ [⟨MessageRole.assistant, String.join deltas⟩] := by
  obtain ⟨d0, ds0, rfl⟩ : ∃ d0 ds0, deltas = d0 :: ds0 := by
    cases deltas with
    | nil => exact absurd rfl hne
    | cons d0 ds0 => exact ⟨d0, ds0, rfl⟩
  have hd0 : d0 ≠ "" := hd d0 (List.mem_cons_self d0 ds0)
  have hS : String.join (d0 :: ds0) ≠ "" := string_join_ne_empty d0 ds0 hd0
  have main : stream_chat tick msgs bot sid
      (Upstream.ok ((d0 :: ds0).map textChunk ++ [finishChunk reason])) =
      cumEvents ("msg_" ++ toString (tick 0)) "" (d0 :: ds0) ++
        [Event.itemDoneText ("msg_" ++ toString (tick 0)) (String.join (d0 :: ds0)),
         Event.completed sid] := by
    simp only [stream_chat]
    rw [runChunks_append]
    rw [show initState = (⟨"", [], 1⟩ : AsmState) from rfl]
    rw [runChunks_textOnly tick ("msg_" ++ toString (tick 0)) (d0 :: ds0) hd "" [] 1]
    simp only [runChunks]
    rw [processChunk_finishChunk tick ("msg_" ++ toString (tick 0)) _ reason hr]
    simp [finishEvents, String.empty_append, hS, List.append_assoc]
  refine ⟨main, ?_, ?_⟩
  · intro e he
    rw [main] at he
    rcases List.mem_append.mp he with hcu | hrest
    · obtain ⟨d, t, rfl⟩ :=
        cumEvents_textDelta ("msg_" ++ toString (tick 0)) "" (d0 :: ds0) e hcu
      rfl
    · simp only [List.mem_cons, List.not_mem_nil, or_false] at hrest
      rcases hrest with rfl | rfl <;> rfl
  · rw [main, syncEvents_spec]
    simp [List.filterMap_append, filterMap_saveOf_cumEvents, List.filterMap_cons,
      saveOf, hS]

/-- C1 witness: the end-to-end scenario `["Hel", "lo"]` + finish. -/
theorem c1_witness :
    stream_chat tickOne [] botNull "s"
        (Upstream.ok (["Hel", "lo"].map textChunk ++ [finishChunk "stop"])) =
      cumEvents ("msg_" ++ toString (tickOne 0)) "" ["Hel", "lo"] ++
        [Event.itemDoneText ("msg_" ++ toString (tickOne 0)) (String.join ["Hel", "lo"]),
         Event.completed "s"]
    ∧ (∀ e ∈ stream_chat tickOne [] botNull "s"
          (Upstream.ok (["Hel", "lo"].map textChunk ++ [finishChunk "stop"])),
        isToolEv e = false)
    ∧ (syncEvents 7 sessNull (stream_chat tickOne [] botNull "s"
          (Upstream.ok (["Hel", "lo"].map textChunk ++ [finishChunk "stop"])))).turns =
        sessNull.turns ++ [⟨MessageRole.assistant, String.join ["Hel", "lo"]⟩] :=
  c1_text_stream_exact tickOne [] botNull "s" ["Hel", "lo"] "stop" 7 sessNull
    (by decide) (by decide) (by decide)

/-- C4 counterexample: a `function_call` `item_done` event triggers no
append at all (the route only persists assistant text items), and two text
`item_done` events carrying the same item id are both persisted — the
synchronizer has no per-id idempotency guard. -/
theorem c4_counterexample :
    (syncEvents 5 ⟨0, 0, []⟩ [Event.itemDoneTool "c1" (some "get_weather") "a1"]).turns.length = 0
    ∧ (syncEvents 5 ⟨0, 0, []⟩
        [Event.itemDoneText "m1" "Hi", Event.itemDoneText "m1" "Hi"]).turns.length = 2 :=
  ⟨rfl, rfl⟩

/-- C4 (amended): the synchronizer performs exactly one append per
`item_done` event of type message with role assistant and nonempty text —
with `message_count` incremented and `last_activity` set in the same
atomic update — while `function_call` `item_done` events are never
persisted, and duplicate qualifying events each produce their own append
(there is no per-item-id idempotency guard). -/
theorem c4_sync_per_event (now : Nat) (sess : SessionRec) (es : List Event) :
    (syncEvents now sess es).turns =
        sess.turns ++ (es.filterMap saveOf).map (fun c => ⟨MessageRole.assistant, c⟩)
    ∧ (syncEvents now sess es).message_count =
        sess.message_count + (es.filterMap saveOf).length
    ∧ (syncEvents now sess es).last_activity =
        (if es.filterMap saveOf = [] then sess.last_activity else now)
    ∧ (∀ i n a, saveOf (Event.itemDoneTool i n a) = none)
    ∧ (∀ i c, c ≠ "" → saveOf (Event.itemDoneText i c) = some c) := by
  rw [syncEvents_spec]
  refine ⟨rfl, rfl, rfl, fun i n a => rfl, fun i c hc => ?_⟩
  simp [saveOf, hc]

/-- C4 witness: one qualifying text `item_done` produces exactly one turn
together with one `message_count` increment and the `last_activity`
update. -/
theorem c4_witness :
    (syncEvents 9 sessNull [Event.itemDoneText "m1" "Hello"]).turns =
        sessNull.turns ++
          ([Event.itemDoneText "m1" "Hello"].filterMap saveOf).map
            (fun c => ⟨MessageRole.assistant, c⟩)
    ∧ saveOf (Event.itemDoneText "m1" "Hello") = some "Hello" :=
  ⟨(c4_sync_per_event 9 sessNull [Event.itemDoneText "m1" "Hello"]).1,
   (c4_sync_per_event 9 sessNull [Event.itemDoneText "m1" "Hello"]).2.2.2.2 "m1" "Hello"
     (by decide)⟩

/-- C7 counterexample: on the persistence-write-failure path the generator
yields the event frame and one error frame, then ends without ever writing
the `[DONE]` sentinel — the claim's "every execution path ends with exactly
one terminal sentinel frame" fails. -/
theorem c7_counterexample :
    generate (fun _ => some "db down")
        [Event.itemDoneText "m" "Hi", Event.completed "s"] 0 =
      [Frame.ev (Event.itemDoneText "m" "Hi"), Frame.errFrame "db down"]
    ∧ Frame.sentinel ∉ generate (fun _ => some "db down")
        [Event.itemDoneText "m" "Hi", Event.completed "s"] 0 :=
  ⟨rfl, by decide⟩

/-- C7 (amended): when every persistence write succeeds — which covers both
normal completion and upstream failure, since the assembler converts
upstream failures into an `error` event that triggers no write — the
generator emits one frame per event followed by exactly one `[DONE]`
sentinel; but when a persistence write raises, the generator emits an error
frame and terminates without the sentinel. -/
theorem c7_terminal_frames (fails : Nat → Option String) (es : List Event) :
    ((∀ k, fails k = none) →
      generate fails es 0 = es.map Frame.ev ++ [Frame.sentinel])
    ∧ (∀ e rest c m, saveOf e = some c → fails 0 = some m →
        generate fails (e :: rest) 0 = [Frame.ev e, Frame.errFrame m]) := by
  constructor
  · intro hok
    have gen : ∀ (l : List Event) (k : Nat),
        generate fails l k = l.map Frame.ev ++ [Frame.sentinel] := by
      intro l
      induction l with
      | nil => intro k; rfl
      | cons e rest ih =>
        intro k
        cases hsv : saveOf e with
        | none => simp [generate, hsv, ih]
        | some c => simp [generate, hsv, hok k, ih]
    exact gen es 0
  · intro e rest c m hsv hf
    simp [generate, hsv, hf]

/-- C7 witness: a normally completed stream is followed by exactly the
sentinel frame. -/
theorem c7_witness :
    generate (fun _ => none) [Event.completed "s"] 0 =
      [Event.completed "s"].map Frame.ev ++ [Frame.sentinel] :=
  (c7_terminal_frames (fun _ => none) [Event.completed "s"]).1 (fun _ => rfl)

/-- C8 counterexample: a bot whose temperature is explicitly set to `0.0`
does not parameterize the provider call with `0.0`: the Python `or`
fallback treats `0.0` as unset and substitutes the process default `0.7`. -/
theorem c8_counterexample :
    (requestParams botZeroTemp defaultSettings).temperature = 7 / 10
    ∧ (requestParams botZeroTemp defaultSettings).temperature ≠ 0 := by
  constructor
  · norm_num [requestParams, pyOrQ, botZeroTemp, defaultSettings]
  · norm_num [requestParams, pyOrQ, botZeroTemp, defaultSettings]

/-- C8 (amended): each provider-call parameter is taken from the bot
configuration exactly when the bot field is set AND truthy (nonzero,
nonempty), and falls back otherwise — to the process-wide Settings value
for model, temperature and max_tokens, and to the literals 1.0 / 0.0 / 0.0
for top_p, frequency_penalty and presence_penalty; in particular a field
set to 0 or 0.0 falls back instead of being used. -/
theorem c8_param_fallback (bot : Chatbot) (st : Settings) :
    ((bot.model = none ∨ bot.model = some "") →
      (requestParams bot st).model = st.OPENAI_MODEL)
    ∧ (∀ v, bot.model = some v → v ≠ "" → (requestParams bot st).model = v)
    ∧ ((bot.temperature = none ∨ bot.temperature = some 0) →
      (requestParams bot st).temperature = st.OPENAI_TEMPERATURE)
    ∧ (∀ v, bot.temperature = some v → v ≠ 0 → (requestParams bot st).temperature = v)
    ∧ ((bot.max_tokens = none ∨ bot.max_tokens = some 0) →
      (requestParams bot st).max_tokens = st.OPENAI_MAX_TOKENS)
    ∧ (∀ v, bot.max_tokens = some v → v ≠ 0 → (requestParams bot st).max_tokens = v)
    ∧ ((bot.top_p = none ∨ bot.top_p = some 0) → (requestParams bot st).top_p = 1)
    ∧ (∀ v, bot.top_p = some v → v ≠ 0 → (requestParams bot st).top_p = v)
    ∧ ((bot.frequency_penalty = none ∨ bot.frequency_penalty = some 0) →
      (requestParams bot st).frequency_penalty = 0)
    ∧ (∀ v, bot.frequency_penalty = some v → v ≠ 0 →
      (requestParams bot st).frequency_penalty = v)
    ∧ ((bot.presence_penalty = none ∨ bot.presence_penalty = some 0) →
      (requestParams bot st).presence_penalty = 0)
    ∧ (∀ v, bot.presence_penalty = some v → v ≠ 0 →
      (requestParams bot st).presence_penalty = v) := by
  refine ⟨?_, ?_, ?_, ?_, ?_, ?_, ?_, ?_, ?_, ?_, ?_, ?_⟩
  · rintro (h | h) <;> simp [requestParams, pyOrStr, h]
  · intro v hv hne; simp [requestParams, pyOrStr, hv, hne]
  · rintro (h | h) <;> simp [requestParams, pyOrQ, h]
  · intro v hv hne; simp [requestParams, pyOrQ, hv, hne]
  · rintro (h | h) <;> simp [requestParams, pyOrInt, h]
  · intro v hv hne; simp [requestParams, pyOrInt, hv, hne]
  · rintro (h | h) <;> simp [requestParams, pyOrQ, h]
  · intro v hv hne; simp [requestParams, pyOrQ, hv, hne]
  · rintro (h | h) <;> simp [requestParams, pyOrQ, h]
  · intro v hv hne; simp [requestParams, pyOrQ, hv, hne]
  · rintro (h | h) <;> simp [requestParams, pyOrQ, h]
  · intro v hv hne; simp [requestParams, pyOrQ, hv, hne]

/-- C8 witness: the zero-temperature bot falls back to the Settings
default. -/
theorem c8_witness :
    (requestParams botZeroTemp defaultSettings).temperature =
      defaultSettings.OPENAI_TEMPERATURE :=
  (c8_param_fallback botZeroTemp defaultSettings).2.2.1 (Or.inr rfl)

/-- C9: the provider prompt begins with one system entry holding the bot's
system prompt exactly when that prompt is nonempty (an empty prompt
produces no system entry), followed by the convertible stored turns in
their stored order; a turn is dropped (converted to `None`, never an
error) exactly when it is a tool-role turn or a non-message message
type. -/
theorem c9_format_messages (msgs : List ChatMessage) (bot : Chatbot) :
    (bot.system_prompt ≠ "" →
      format_messages msgs bot =
        ("system", bot.system_prompt) :: msgs.filterMap to_openai_format)
    ∧ (bot.system_prompt = "" →
      format_messages msgs bot = msgs.filterMap to_openai_format)
    ∧ (∀ m : ChatMessage, to_openai_format m = none ↔
        (m.message_type ≠ MessageType.message ∨ m.role = MessageRole.tool)) := by
  refine ⟨?_, ?_, ?_⟩
  · intro h; simp [format_messages, h, formatLoop_eq_filterMap]
  · intro h; simp [format_messages, h, formatLoop_eq_filterMap]
  · intro m
    rcases m with ⟨r, t, rc⟩
    cases r <;> cases t <;> simp [to_openai_format]

theorem runChunks_noErrCompleted (tick : Nat → Nat) (msgId : String)
    (chunks : List Chunk) (s : AsmState) :
    ∀ e ∈ (runChunks tick msgId s chunks).2,
      isErrorEv e = false ∧ isCompletedEv e = false := by
  intro e he
  rcases runChunks_mem tick msgId chunks s e he with
    ⟨d, t, rfl⟩ | ⟨i, n, rfl⟩ | ⟨a, i, rfl⟩ | ⟨i, a, rfl⟩ | ⟨c2, rfl⟩ | ⟨i, n, a, rfl⟩ <;>
    exact ⟨rfl, rfl⟩

theorem saveOf_eq_none (e : Event) (h : isDoneEv e = false) : saveOf e = none := by
  cases e <;> simp_all [saveOf, isDoneEv]

/-- C3 counterexample: the error event the code emits carries the fixed
kind "streaming_error", which is not one of the spec's taxonomy kinds
upstream_unavailable / upstream_protocol_error / cancelled. -/
theorem c3_counterexample :
    stream_chat tickOne [] botNull "s" (Upstream.failAfter [textChunk "He"] "boom") =
      [Event.textDelta "He" "msg_1" "He", Event.streamError "boom" "streaming_error"]
    ∧ "streaming_error" ∉
        (["upstream_unavailable", "upstream_protocol_error", "cancelled"] : List String) := by
  exact ⟨by decide, by decide⟩

/-- C3 (amended): if the provider stream raises after chunks that carried
no finish signal, `stream_chat` emits exactly one stream_error event — of
the single fixed kind "streaming_error", carrying the exception message —
as the last event; it emits no stream_completed and no item_done, and
nothing from the interrupted response is persisted. -/
theorem c3_upstream_failure (tick : Nat → Nat) (msgs : List ChatMessage) (bot : Chatbot)
    (sid : String) (chunks : List Chunk) (msg : String) (now : Nat) (sess : SessionRec)
    (hnf : noFinish chunks) :
    (stream_chat tick msgs bot sid (Upstream.failAfter chunks msg)).countP isErrorEv = 1
    ∧ (stream_chat tick msgs bot sid (Upstream.failAfter chunks msg)).getLast? =
        some (Event.streamError msg "streaming_error")
    ∧ (∀ e ∈ stream_chat tick msgs bot sid (Upstream.failAfter chunks msg),
        isCompletedEv e = false)
    ∧ (∀ e ∈ stream_chat tick msgs bot sid (Upstream.failAfter chunks msg),
        isDoneEv e = false)
    ∧ syncEvents now sess (stream_chat tick msgs bot sid (Upstream.failAfter chunks msg)) =
        sess := by
  have hsplit : stream_chat tick msgs bot sid (Upstream.failAfter chunks msg) =
      (runChunks tick ("msg_" ++ toString (tick 0)) initState chunks).2 ++
        [Event.streamError msg "streaming_error"] := rfl
  have hdone : ∀ e ∈ stream_chat tick msgs bot sid (Upstream.failAfter chunks msg),
      isDoneEv e = false := by
    intro e he
    rw [hsplit] at he
    rcases List.mem_append.mp he with h1 | h2
    · exact runChunks_noDone tick _ chunks hnf initState e h1
    · simp only [List.mem_singleton] at h2
      subst h2
      rfl
  refine ⟨?_, ?_, ?_, hdone, ?_⟩
  · rw [hsplit, List.countP_append]
    have h0 : (runChunks tick ("msg_" ++ toString (tick 0)) initState chunks).2.countP
        isErrorEv = 0 := by
      refine List.countP_eq_zero.mpr ?_
      intro e he
      simp [(runChunks_noErrCompleted tick _ chunks initState e he).1]
    rw [h0]
    rfl
  · rw [hsplit]
    exact List.getLast?_concat _
  · intro e he
    rw [hsplit] at he
    rcases List.mem_append.mp he with h1 | h2
    · exact (runChunks_noErrCompleted tick _ chunks initState e h1).2
    · simp only [List.mem_singleton] at h2
      subst h2
      rfl
  · rw [syncEvents_spec]
    have hnil : (stream_chat tick msgs bot sid
        (Upstream.failAfter chunks msg)).filterMap saveOf = [] := by
      refine List.filterMap_eq_nil.mpr ?_
      intro e he
      exact saveOf_eq_none e (hdone e he)
    rw [hnil]
    simp

/-- C3 witness: the end-to-end scenario of a provider raise after one
partial text delta. -/
theorem c3_witness :
    (stream_chat tickOne [] botNull "s"
      (Upstream.failAfter [textChunk "He"] "boom")).countP isErrorEv = 1 :=
  (c3_upstream_failure tickOne [] botNull "s" [textChunk "He"] "boom" 3 sessNull
    (by unfold noFinish; decide)).1

/-- C5 counterexample: a chunk sequence that ends with no finish signal
still makes the code emit `response.completed` — the `yield` after the
chunk loop is unconditional. -/
theorem c5_counterexample :
    Event.completed "s" ∈
      stream_chat tickOne [] botNull "s" (Upstream.ok [textChunk "He"]) := by
  decide

/-- C5 (amended): when the chunk sequence ends with no finish signal, no
item_done is emitted for any open item, but — contrary to the original
claim — `stream_chat` still emits exactly one stream_completed event, as
the final event of the sequence. -/
theorem c5_no_finish (tick : Nat → Nat) (msgs : List ChatMessage) (bot : Chatbot)
    (sid : String) (chunks : List Chunk) (hnf : noFinish chunks) :
    (∀ e ∈ stream_chat tick msgs bot sid (Upstream.ok chunks), isDoneEv e = false)
    ∧ (stream_chat tick msgs bot sid (Upstream.ok chunks)).countP isCompletedEv = 1
    ∧ (stream_chat tick msgs bot sid (Upstream.ok chunks)).getLast? =
        some (Event.completed sid) := by
  have hsplit : stream_chat tick msgs bot sid (Upstream.ok chunks) =
      (runChunks tick ("msg_" ++ toString (tick 0)) initState chunks).2 ++
        [Event.completed sid] := rfl
  refine ⟨?_, ?_, ?_⟩
  · intro e he
    rw [hsplit] at he
    rcases List.mem_append.mp he with h1 | h2
    · exact runChunks_noDone tick _ chunks hnf initState e h1
    · simp only [List.mem_singleton] at h2
      subst h2
      rfl
  · rw [hsplit, List.countP_append]
    have h0 : (runChunks tick ("msg_" ++ toString (tick 0)) initState chunks).2.countP
        isCompletedEv = 0 := by
      refine List.countP_eq_zero.mpr ?_
      intro e he
      simp [(runChunks_noErrCompleted tick _ chunks initState e he).2]
    rw [h0]
    rfl
  · rw [hsplit]
    exact List.getLast?_concat _

/-- C5 witness: the simulated-disconnect scenario (one text delta, no
finish signal). -/
theorem c5_witness :
    (stream_chat tickOne [] botNull "s"
      (Upstream.ok [textChunk "He"])).countP isCompletedEv = 1 :=
  (c5_no_finish tickOne [] botNull "s" [textChunk "He"] (by unfold noFinish; decide)).2.1

/-- C9 witness: a user message after a nonempty system prompt. -/
theorem c9_witness :
    format_messages [msgUser] botSys =
      ("system", botSys.system_prompt) :: [msgUser].filterMap to_openai_format :=
  (c9_format_messages [msgUser] botSys).1 (by decide)

/-- C10: within one `stream_chat` invocation there is at most one text
item: every `response.output_text.delta` event and every text
`response.output_item.done` event carries the single item id
`"msg_" ++ toString (tick 0)`, fixed from the clock before the first chunk
is consumed, for every chunk sequence and every outcome. -/
theorem c10_single_text_item (tick : Nat → Nat) (msgs : List ChatMessage) (bot : Chatbot)
    (sid : String) (outcome : Upstream) :
    ∀ e ∈ stream_chat tick msgs bot sid outcome, isTextEv e = true →
      itemIdOf e = some ("msg_" ++ toString (tick 0)) := by
  have hpre : ∀ chunks, ∀ e ∈ (runChunks tick ("msg_" ++ toString (tick 0))
      initState chunks).2, isTextEv e = true →
      itemIdOf e = some ("msg_" ++ toString (tick 0)) := by
    intro chunks e he htext
    rcases runChunks_mem tick _ chunks initState e he with
      ⟨d, t, rfl⟩ | ⟨i, n, rfl⟩ | ⟨a, i, rfl⟩ | ⟨i, a, rfl⟩ | ⟨c2, rfl⟩ | ⟨i, n, a, rfl⟩
    · rfl
    · simp [isTextEv] at htext
    · simp [isTextEv] at htext
    · simp [isTextEv] at htext
    · rfl
    · simp [isTextEv] at htext
  intro e he htext
  cases outcome with
  | ok chunks =>
    rcases List.mem_append.mp he with h1 | h2
    · exact hpre chunks e h1 htext
    · simp only [List.mem_singleton] at h2
      subst h2
      simp [isTextEv] at htext
  | failAfter chunks msg =>
    rcases List.mem_append.mp he with h1 | h2
    · exact hpre chunks e h1 htext
    · simp only [List.mem_singleton] at h2
      subst h2
      simp [isTextEv] at htext

/-- C10 witness: the first text delta of a concrete stream carries the
clock-derived message id. -/
theorem c10_witness :
    itemIdOf (Event.textDelta "Hel" "msg_1" "Hel") =
      some ("msg_" ++ toString (tickOne 0)) :=
  c10_single_text_item tickOne [] botNull "s"
    (Upstream.ok [textChunk "Hel", finishChunk "stop"])
    (Event.textDelta "Hel" "msg_1" "Hel") (by decide) (by decide)

/-- C6 counterexample: two invocations with identical message list, chatbot
configuration, session id and chunk stream, but run at different wall-clock
times (`int(time.time() * 1000)` reads 1 vs 2), produce different event
sequences — the item id is derived from the clock, not from the inputs. -/
theorem c6_counterexample :
    stream_chat tickOne [] botNull "s"
        (Upstream.ok [textChunk "Hi", finishChunk "stop"]) ≠
      stream_chat tickTwo [] botNull "s"
        (Upstream.ok [textChunk "Hi", finishChunk "stop"]) := by
  decide

/-- C6 (amended): the emitted event sequence is a function of the inputs
together with the clock readings of the invocation — replaying the same
finished chunk sequence with the same clock trace yields a byte-identical
event sequence — and every item id in the events is either the
clock-derived text id `"msg_" ++ toString (tick 0)`, a provider-supplied
tool-call id from the chunk stream, or a clock-derived fallback tool id
`"tool_" ++ toString (tick k)`. -/
theorem c6_replay (tick tickB : Nat → Nat) (msgs : List ChatMessage) (bot : Chatbot)
    (sid : String) (outcome : Upstream) :
    ((∀ k, tick k = tickB k) →
      stream_chat tick msgs bot sid outcome = stream_chat tickB msgs bot sid outcome)
    ∧ (∀ e ∈ stream_chat tick msgs bot sid outcome, ∀ i, itemIdOf e = some i →
        i = "msg_" ++ toString (tick 0) ∨ i ∈ providedIds outcome
        ∨ ∃ k, i = "tool_" ++ toString (tick k)) := by
  constructor
  · intro h
    rw [funext h]
  · have hpre : ∀ chunks, chunks.flatMap chunkToolIds = providedIds outcome →
        ∀ e ∈ (runChunks tick ("msg_" ++ toString (tick 0)) initState chunks).2,
        ∀ i, itemIdOf e = some i →
          i = "msg_" ++ toString (tick 0) ∨ i ∈ providedIds outcome
          ∨ ∃ k, i = "tool_" ++ toString (tick k) := by
      intro chunks hflat e he i hid
      rcases runChunks_ids tick _ chunks initState e he i hid with h | h | h | h
      · exact Or.inl h
      · rw [hflat] at h
        exact Or.inr (Or.inl h)
      · exact Or.inr (Or.inr h)
      · simp [initState] at h
    intro e he i hid
    cases outcome with
    | ok chunks =>
      rcases List.mem_append.mp he with h1 | h2
      · exact hpre chunks rfl e h1 i hid
      · simp only [List.mem_singleton] at h2
        subst h2
        simp [itemIdOf] at hid
    | failAfter chunks msg =>
      rcases List.mem_append.mp he with h1 | h2
      · exact hpre chunks rfl e h1 i hid
      · simp only [List.mem_singleton] at h2
        subst h2
        simp [itemIdOf] at hid

/-- C6 witness: a same-clock replay is identical, and a concrete item id
is accounted for by the id taxonomy. -/
theorem c6_witness :
    (stream_chat tickOne [] botNull "s"
        (Upstream.ok [textChunk "Hi", finishChunk "stop"]) =
      stream_chat tickOne [] botNull "s"
        (Upstream.ok [textChunk "Hi", finishChunk "stop"]))
    ∧ ("msg_1" = "msg_" ++ toString (tickOne 0)
        ∨ "msg_1" ∈ providedIds (Upstream.ok [textChunk "Hi", finishChunk "stop"])
        ∨ ∃ k, "msg_1" = "tool_" ++ toString (tickOne k)) :=
  ⟨(c6_replay tickOne tickOne [] botNull "s"
      (Upstream.ok [textChunk "Hi", finishChunk "stop"])).1 (fun _ => rfl),
   (c6_replay tickOne tickOne [] botNull "s"
      (Upstream.ok [textChunk "Hi", finishChunk "stop"])).2
     (Event.textDelta "Hi" "msg_1" "Hi") (by decide) "msg_1" (by decide)⟩

theorem addedIds_append (a b : List Event) :
    addedIds (a ++ b) = addedIds a ++ addedIds b := by
  simp [addedIds, List.filterMap_append]

theorem addedIds_finishEvents (msgId : String) (s : AsmState) :
    addedIds (finishEvents msgId s) = [] := by
  refine List.filterMap_eq_nil.mpr ?_
  intro e he
  rcases finishEvents_mem msgId s e he with rfl | ⟨p, hp, rfl | rfl⟩ <;> rfl

theorem processToolDelta_addedIds (tick : Nat → Nat) (s : AsmState) (tc : ToolDelta) :
    addedIds (processToolDelta tick s tc).2 =
      if hasTool s.tools (resolveToolId tick s tc).1 then []
      else [(resolveToolId tick s tc).1] := by
  obtain ⟨tid, c2, hres⟩ : ∃ tid c2, resolveToolId tick s tc = (tid, c2) :=
    ⟨(resolveToolId tick s tc).1, (resolveToolId tick s tc).2, rfl⟩
  rcases tc with ⟨oid, ofn⟩
  simp only [processToolDelta, hres]
  by_cases ht : hasTool s.tools tid
  · rcases ofn with _ | ⟨fnm, fargs⟩
    · simp [ht, addedIds]
    · rcases fargs with _ | a
      · simp [ht, addedIds]
      · by_cases ha : a = ""
        · simp [ht, ha, addedIds]
        · simp [ht, ha, addedIds, List.filterMap_cons]
  · rcases ofn with _ | ⟨fnm, fargs⟩
    · simp [ht, addedIds, List.filterMap_cons]
    · rcases fargs with _ | a
      · simp [ht, addedIds, List.filterMap_cons]
      · by_cases ha : a = ""
        · simp [ht, ha, addedIds, List.filterMap_cons]
        · simp [ht, ha, addedIds, List.filterMap_cons]

theorem processToolDelta_keys_added (tick : Nat → Nat) (s : AsmState) (tc : ToolDelta) :
    (processToolDelta tick s tc).1.tools.map Prod.fst =
      s.tools.map Prod.fst ++ addedIds (processToolDelta tick s tc).2 := by
  rw [(processToolDelta_state tick s tc).2, processToolDelta_addedIds]
  by_cases ht : hasTool s.tools (resolveToolId tick s tc).1
  · simp [insertNew, (hasTool_iff _ _).mp ht, ht]
  · have hmem : (resolveToolId tick s tc).1 ∉ s.tools.map Prod.fst :=
      fun hm => ht ((hasTool_iff _ _).mpr hm)
    simp [insertNew, hmem, ht]

theorem processToolDeltas_keys_added (tick : Nat → Nat) (tds : List ToolDelta) :
    ∀ s : AsmState,
      (processToolDeltas tick s tds).1.tools.map Prod.fst =
        s.tools.map Prod.fst ++ addedIds (processToolDeltas tick s tds).2 := by
  induction tds with
  | nil => intro s; simp [processToolDeltas, addedIds]
  | cons tc rest ih =>
    intro s
    obtain ⟨s1, es1, hpd⟩ : ∃ s1 es1, processToolDelta tick s tc = (s1, es1) := ⟨_, _, rfl⟩
    obtain ⟨s2, es2, hrec⟩ : ∃ s2 es2, processToolDeltas tick s1 rest = (s2, es2) :=
      ⟨_, _, rfl⟩
    have h1 := processToolDelta_keys_added tick s tc
    rw [hpd] at h1
    have h2 := ih s1
    rw [hrec] at h2
    simp only [processToolDeltas, hpd, hrec]
    rw [h2, h1, addedIds_append, List.append_assoc]

theorem processChunk_keys_added (tick : Nat → Nat) (msgId : String) (c : Chunk)
    (s : AsmState) :
    (processChunk tick msgId s c).1.tools.map Prod.fst =
      s.tools.map Prod.fst ++ addedIds (processChunk tick msgId s c).2 := by
  rcases c with ⟨od, fin⟩
  rcases od with _ | d
  · simp [processChunk, addedIds]
  · rcases d with ⟨oc, tcs⟩
    have hite : ∀ s2 : AsmState,
        addedIds (if strTruthy fin = true then finishEvents msgId s2 else []) = [] := by
      intro s2
      by_cases hf : strTruthy fin = true
      · simp [hf, addedIds_finishEvents]
      · simp [hf, addedIds]
    rw [processChunk_eq]
    rcases htx : textOf ⟨some ⟨oc, tcs⟩, fin⟩ with _ | t
    all_goals simp only [htx]
    · rw [List.nil_append, addedIds_append, hite,
        processToolDeltas_keys_added tick tcs s]
      simp
    · rw [addedIds_append, addedIds_append, hite,
        processToolDeltas_keys_added tick tcs { s with buf := s.buf ++ t }]
      simp [addedIds, List.filterMap_cons]

theorem runChunks_keys_added (tick : Nat → Nat) (msgId : String) :
    ∀ (chunks : List Chunk) (s : AsmState),
      (runChunks tick msgId s chunks).1.tools.map Prod.fst =
        s.tools.map Prod.fst ++ addedIds (runChunks tick msgId s chunks).2 := by
  intro chunks
  induction chunks with
  | nil => intro s; simp [runChunks, addedIds]
  | cons c cs ih =>
    intro s
    rw [runChunks_eq_cons]
    show (runChunks tick msgId (processChunk tick msgId s c).1 cs).1.tools.map Prod.fst = _
    rw [ih, processChunk_keys_added, addedIds_append, List.append_assoc]

theorem processToolDeltas_keys_nodup (tick : Nat → Nat) (tds : List ToolDelta) :
    ∀ s : AsmState, (s.tools.map Prod.fst).Nodup →
      ((processToolDeltas tick s tds).1.tools.map Prod.fst).Nodup := by
  induction tds with
  | nil => intro s h; exact h
  | cons tc rest ih =>
    intro s h
    obtain ⟨s1, es1, hpd⟩ : ∃ s1 es1, processToolDelta tick s tc = (s1, es1) := ⟨_, _, rfl⟩
    obtain ⟨s2, es2, hrec⟩ : ∃ s2 es2, processToolDeltas tick s1 rest = (s2, es2) :=
      ⟨_, _, rfl⟩
    have h1 := (processToolDelta_state tick s tc).2
    rw [hpd] at h1
    have hs1 : (s1.tools.map Prod.fst).Nodup := by
      rw [h1]
      exact insertNew_nodup _ _ h
    have := ih s1 hs1
    rw [hrec] at this
    simpa [processToolDeltas, hpd, hrec] using this

theorem processChunk_keys_nodup (tick : Nat → Nat) (msgId : String) (c : Chunk)
    (s : AsmState) (h : (s.tools.map Prod.fst).Nodup) :
    ((processChunk tick msgId s c).1.tools.map Prod.fst).Nodup := by
  rcases c with ⟨od, fin⟩
  rcases od with _ | d
  · simpa [processChunk] using h
  · rcases d with ⟨oc, tcs⟩
    rw [processChunk_eq]
    rcases htx : textOf ⟨some ⟨oc, tcs⟩, fin⟩ with _ | t
    all_goals simp only [htx]
    · exact processToolDeltas_keys_nodup tick tcs s h
    · exact processToolDeltas_keys_nodup tick tcs { s with buf := s.buf ++ t } (by simpa using h)

theorem runChunks_keys_nodup (tick : Nat → Nat) (msgId : String) :
    ∀ (chunks : List Chunk) (s : AsmState), (s.tools.map Prod.fst).Nodup →
      ((runChunks tick msgId s chunks).1.tools.map Prod.fst).Nodup := by
  intro chunks
  induction chunks with
  | nil => intro s h; exact h
  | cons c cs ih =>
    intro s h
    rw [runChunks_eq_cons]
    exact ih (processChunk tick msgId s c).1 (processChunk_keys_nodup tick msgId c s h)

/-- C2 counterexample: the finish block does not reset the assembler's
buffers, so a chunk sequence carrying two finish signals emits the text
item_done twice for the same item id — an item emits more than one terminal
event. -/
theorem c2_counterexample :
    (stream_chat tickOne [] botNull "s"
      (Upstream.ok [textChunk "Hi", finishChunk "stop", finishChunk "stop"])).countP
        isDoneEv = 2
    ∧ ¬ (doneIds (stream_chat tickOne [] botNull "s"
        (Upstream.ok [textChunk "Hi", finishChunk "stop", finishChunk "stop"]))).Nodup := by
  exact ⟨by decide, by decide⟩

/-- C2 (amended): for a chunk sequence whose only finish signal is its
final chunk, the finish block emits, after the delta-phase events (which
contain no `item_done`): one text `item_done` with role assistant and
content equal to the accumulated buffer — which equals the concatenation
of all text deltas, and is omitted when no text was received — then for
each tool-call item, in first-discovered order (the order of the
`tool_call_started` events, whether the item id was provider-supplied or
the clock-derived fallback), one `tool_call_done` (arguments = accumulated
buffer) followed by one function_call `item_done`; the tool items' ids are
pairwise distinct and each is finalized exactly once.  The
one-terminal-event guarantee requires the single-finish hypothesis: the
code does not reset its buffers on finish (see the counterexample). -/
theorem c2_finish_block (tick : Nat → Nat) (msgs : List ChatMessage) (bot : Chatbot)
    (sid : String) (body : List Chunk) (reason : String)
    (hnf : noFinish body) (hr : reason ≠ "") :
    stream_chat tick msgs bot sid (Upstream.ok (body ++ [finishChunk reason])) =
      (runChunks tick ("msg_" ++ toString (tick 0)) initState body).2 ++
        finishEvents ("msg_" ++ toString (tick 0))
          (runChunks tick ("msg_" ++ toString (tick 0)) initState body).1 ++
        [Event.completed sid]
    ∧ (∀ e ∈ (runChunks tick ("msg_" ++ toString (tick 0)) initState body).2,
        isDoneEv e = false)
    ∧ (runChunks tick ("msg_" ++ toString (tick 0)) initState body).1.tools.map Prod.fst =
        addedIds (runChunks tick ("msg_" ++ toString (tick 0)) initState body).2
    ∧ (runChunks tick ("msg_" ++ toString (tick 0)) initState body).1.buf =
        concatTexts body
    ∧ doneIds (stream_chat tick msgs bot sid (Upstream.ok (body ++ [finishChunk reason]))) =
        (if concatTexts body = "" then [] else ["msg_" ++ toString (tick 0)]) ++
          (runChunks tick ("msg_" ++ toString (tick 0)) initState body).1.tools.map Prod.fst
    ∧ ((runChunks tick ("msg_" ++ toString (tick 0))
        initState body).1.tools.map Prod.fst).Nodup := by
  have hkeys : (runChunks tick ("msg_" ++ toString (tick 0)) initState body).1.tools.map
      Prod.fst = addedIds (runChunks tick ("msg_" ++ toString (tick 0))
        initState body).2 := by
    rw [runChunks_keys_added tick ("msg_" ++ toString (tick 0)) body initState]
    rfl
  have hbuf : (runChunks tick ("msg_" ++ toString (tick 0)) initState body).1.buf =
      concatTexts body := by
    rw [runChunks_buf tick ("msg_" ++ toString (tick 0)) body initState]
    exact String.empty_append _
  have hnd : ∀ e ∈ (runChunks tick ("msg_" ++ toString (tick 0)) initState body).2,
      isDoneEv e = false := runChunks_noDone tick _ body hnf initState
  have main : stream_chat tick msgs bot sid (Upstream.ok (body ++ [finishChunk reason])) =
      (runChunks tick ("msg_" ++ toString (tick 0)) initState body).2 ++
        finishEvents ("msg_" ++ toString (tick 0))
          (runChunks tick ("msg_" ++ toString (tick 0)) initState body).1 ++
        [Event.completed sid] := by
    simp only [stream_chat]
    rw [runChunks_append, runChunks_eq_cons,
      processChunk_finishChunk tick _ _ reason hr]
    simp [runChunks, List.append_assoc]
  have hids : doneIds (stream_chat tick msgs bot sid
      (Upstream.ok (body ++ [finishChunk reason]))) =
      (if concatTexts body = "" then [] else ["msg_" ++ toString (tick 0)]) ++
        (runChunks tick ("msg_" ++ toString (tick 0))
          initState body).1.tools.map Prod.fst := by
    rw [main, doneIds_append, doneIds_append,
      doneIds_eq_nil _ hnd,
      doneIds_eq_nil [Event.completed sid] (by intro e he; simp at he; subst he; rfl),
      doneIds_finishEvents, hbuf]
    simp
  exact ⟨main, hnd, hkeys, hbuf, hids,
    runChunks_keys_nodup tick ("msg_" ++ toString (tick 0)) body initState
      List.nodup_nil⟩

/-- C2 witness: one text item, one provider-identified tool call and one
id-less tool call resolved to the clock-derived fallback id, finished by a
single final finish chunk. -/
theorem c2_witness :
    doneIds (stream_chat tickOne [] botNull "s"
        (Upstream.ok ([textChunk "Hi", toolChunkW, toolChunkAnon] ++ [finishChunk "stop"]))) =
      (if concatTexts [textChunk "Hi", toolChunkW, toolChunkAnon] = "" then []
        else ["msg_" ++ toString (tickOne 0)]) ++
        (runChunks tickOne ("msg_" ++ toString (tickOne 0)) initState
          [textChunk "Hi", toolChunkW, toolChunkAnon]).1.tools.map Prod.fst :=
  (c2_finish_block tickOne [] botNull "s" [textChunk "Hi", toolChunkW, toolChunkAnon]
    "stop" (by unfold noFinish; decide) (by decide)).2.2.2.2.1

end ChatApp